import Mathlib

/-!
Shallow embedding of the CAPA report generator's document renderer (the
generic report utility module: `ensureArray`, `ensureString`,
`formatKeyName`, `isHighlightKey`, `renderPrimitive`, `renderArray`,
`renderObject`, `generateHtmlFromData`) and of the fenced-code-block
stripping step of the upload component, together with proofs of the
specification claims about them.
-/

namespace CapaReport

/-- JSON-representable values. `null` models both JS `null` and
`undefined`, which the embedded code treats identically everywhere it
can receive them (`ensureArray`, `ensureString`, the type guards and the
renderers). An object is represented by its entry list in insertion
order, as produced by `Object.entries`. Numbers are modelled as
integers; no claim depends on non-integer numerics. -/
inductive Json where
  | str (s : String)
  | num (n : Int)
  | bool (b : Bool)
  | null
  | arr (elems : List Json)
  | obj (fields : List (String × Json))

/-- Type guard `isPrimitive`: string, number or boolean. -/
def isPrimitiveB : Json → Bool
  | .str _ => true
  | .num _ => true
  | .bool _ => true
  | _ => false

/-- Safe array accessor (source `ensureArray`): an array is returned
unchanged, `null`/`undefined` become `[]`, anything else is wrapped. -/
def ensureArray (value : Json) : List Json :=
  match value with
  | .arr elems => elems
  | .null => []
  | v => [v]

/-- Escaping of one character inside a JSON string literal, for the
`JSON.stringify` fallback of `ensureString`. -/
def escapeJsonChar (c : Char) : List Char :=
  if c = '\"' then ['\\', '\"']
  else if c = '\\' then ['\\', '\\']
  else if c = '\n' then ['\\', 'n']
  else if c = '\t' then ['\\', 't']
  else if c = '\r' then ['\\', 'r']
  else [c]

/-- JS `Array.prototype.join(',')`. -/
def joinComma : List String → String
  | [] => ""
  | [s] => s
  | s :: rest => s ++ "," ++ joinComma rest

mutual
/-- Compact structural serialization: `JSON.stringify`, reached by
`ensureString` only for arrays and objects. -/
def jsonStringify : Json → String
  | .str s => "\"" ++ String.mk (List.flatten (s.data.map escapeJsonChar)) ++ "\""
  | .num n => toString n
  | .bool b => if b then "true" else "false"
  | .null => "null"
  | .arr elems => "[" ++ joinComma (stringifyElems elems) ++ "]"
  | .obj fields => "\x7b" ++ joinComma (stringifyFields fields) ++ "\x7d"

def stringifyElems : List Json → List String
  | [] => []
  | v :: rest => jsonStringify v :: stringifyElems rest

def stringifyFields : List (String × Json) → List String
  | [] => []
  | (k, v) :: rest =>
    ("\"" ++ String.mk (List.flatten (k.data.map escapeJsonChar)) ++ "\":" ++ jsonStringify v)
      :: stringifyFields rest
end

/-- Safe string accessor (source `ensureString`). -/
def ensureString (value : Json) : String :=
  match value with
  | .str s => s
  | .null => ""
  | .num n => toString n
  | .bool b => if b then "true" else "false"
  | v => jsonStringify v

/-- ASCII uppercase test, the regex class `[A-Z]`. -/
def isAsciiUpper (c : Char) : Bool :=
  65 ≤ c.toNat && c.toNat ≤ 90

/-- JS whitespace (the `\s` class, also the set removed by
`String.prototype.trim`), restricted to its ASCII members. -/
def isJsSpace (c : Char) : Bool :=
  c.toNat = 32 || c.toNat = 9 || c.toNat = 10 || c.toNat = 13 || c.toNat = 11 || c.toNat = 12

/-- The replace `key.replace(/([A-Z])/g, ' $1')`: a space is inserted
before every ASCII uppercase letter, including one at position 0. -/
def spaceBeforeUppers : List Char → List Char
  | [] => []
  | c :: rest => (if isAsciiUpper c then [' ', c] else [c]) ++ spaceBeforeUppers rest

/-- The replace `.replace(/^./, s => s.toUpperCase())`: uppercase the
first character of a non-empty string. -/
def upperFirst : List Char → List Char
  | [] => []
  | c :: rest => c.toUpper :: rest

/-- Right-trim only: drop trailing JS whitespace. -/
def rtrimChars (u : List Char) : List Char :=
  (u.reverse.dropWhile isJsSpace).reverse

/-- JS `String.prototype.trim`: drop whitespace from both ends. -/
def trimChars (cs : List Char) : List Char :=
  rtrimChars (cs.dropWhile isJsSpace)

/-- The fixed special-case table of `formatKeyName`. -/
def specialCases : List (String × String) :=
  [("html_data", "HTML Data"),
   ("hazardId", "Hazard ID"),
   ("reportDate", "Report Date"),
   ("riskRating", "Risk Rating"),
   ("rootCauseAnalysis", "Root Cause Analysis"),
   ("riskAssessment", "Risk Assessment"),
   ("complianceReferences", "Compliance References"),
   ("imageAnalysis", "Image Analysis"),
   ("detectedHazards", "Detected Hazards"),
   ("overallEnvironment", "Overall Environment"),
   ("confidenceScore", "Confidence Score"),
   ("boundingBox", "Bounding Box"),
   ("hazardType", "Hazard Type"),
   ("potentialHarm", "Potential Harm"),
   ("riskLevel", "Risk Level"),
   ("responsiblePerson", "Responsible Person"),
   ("immediateAction", "Immediate Action")]

/-- The generic camelCase-to-Title transform of `formatKeyName`'s miss
branch, in the source's order: insert spaces, uppercase first char, trim. -/
def camelToTitle (key : String) : String :=
  String.mk (trimChars (upperFirst (spaceBeforeUppers key.data)))

/-- Names of the `Object.prototype` members visible on a plain object
literal. The source's hit test `if (specialCases[key])` is a truthy
PROPERTY ACCESS, not an own-entry lookup, so for these keys it finds the
inherited member (a function, or for `__proto__` an object) — all
truthy — and returns it instead of falling through to the generic
transform. -/
def objectPrototypeKeys : List String :=
  ["constructor", "hasOwnProperty", "isPrototypeOf", "propertyIsEnumerable",
   "toLocaleString", "toString", "valueOf", "__proto__",
   "__defineGetter__", "__defineSetter__", "__lookupGetter__", "__lookupSetter__"]

/-- The string that the inherited member fetched by `specialCases[key]`
contributes when the returned label is interpolated into a template
literal: built-in functions print in NativeFunction form
(`function <name>() [ native code ]` with braces around the body) and
the `__proto__` accessor yields `Object.prototype`, printing as
`[object Object]`. The exact text is the standard V8/Node rendering;
no claim depends on more than it differing from the generic transform. -/
def inheritedMemberString (key : String) : String :=
  if key = "__proto__" then "[object Object]"
  else "function " ++ key ++ "() \x7b [native code] \x7d"

/-- Format key names for display (source `formatKeyName`). The hit test
`if (specialCases[key]) return specialCases[key]` is modelled in three
steps: an own entry of the table shadows everything (all 17 values are
non-empty strings, hence truthy); otherwise a key naming an inherited
`Object.prototype` member hits that member — the function itself is
returned in JS, violating the declared `: string` type, and is rendered
downstream as its string coercion `inheritedMemberString` — and only
otherwise is the access `undefined` (falsy) and the generic camelCase
transform reached. -/
def formatKeyName (key : String) : String :=
  match specialCases.lookup key with
  | some label => label
  | none =>
    if key ∈ objectPrototypeKeys then inheritedMemberString key
    else camelToTitle key

/-- The claim's wording of the miss-branch transform: a space before every
uppercase letter that is NOT the first character, then the very first
character of the result uppercased, then surrounding whitespace trimmed.
Stated from the claim, for comparison with `camelToTitle`. -/
def spaceBeforeUppersTail : List Char → List Char
  | [] => []
  | c :: rest => c :: spaceBeforeUppers rest

/-- Claim-side version of the generic transform (see
`spaceBeforeUppersTail`). -/
def camelToTitleClaim (key : String) : String :=
  String.mk (trimChars (upperFirst (spaceBeforeUppersTail key.data)))

/-- Claim-side version of the key-label formatter: table lookup first, on
a miss the claim's generic transform. -/
def formatKeyNameClaim (key : String) : String :=
  match specialCases.lookup key with
  | some label => label
  | none => camelToTitleClaim key

/-- Match test at the current position, for `containsSub`. -/
def isPrefixList : List Char → List Char → Bool
  | [], _ => true
  | _ :: _, [] => false
  | a :: as, b :: bs => a == b && isPrefixList as bs

/-- JS `String.prototype.includes`: `needle` occurs somewhere in the
haystack. -/
def containsSub : List Char → List Char → Bool
  | [], needle => needle.isEmpty
  | c :: rest, needle => isPrefixList needle (c :: rest) || containsSub rest needle

/-- JS `toLowerCase`, basic-latin letters. -/
def toLowerStr (s : String) : String :=
  String.mk (s.data.map Char.toLower)

/-- The fixed highlight-substring list of `isHighlightKey`. -/
def highlightKeys : List String :=
  ["title", "description", "hazard", "action", "risk", "severity",
   "category", "location", "immediateAction", "riskRating"]

/-- Determine if a key should be highlighted (source `isHighlightKey`):
some entry of the list occurs, lowercased, in the lowercased key. -/
def isHighlightKey (key : String) : Bool :=
  highlightKeys.any (fun k => containsSub (toLowerStr key).data (toLowerStr k).data)

/-- Emphasised paragraph node for highlighted primitive values. -/
def highlightedP (displayValue : String) : String :=
  "<p style=\"margin: 0; font-weight: 600; color: #111827; line-height: 1.6;\">"
    ++ displayValue ++ "</p>"

/-- Standard paragraph node for non-highlighted primitive values. -/
def standardP (displayValue : String) : String :=
  "<p style=\"margin: 0; color: #4b5563; line-height: 1.6;\">" ++ displayValue ++ "</p>"

/-- Generate HTML for a primitive value (source `renderPrimitive`). The
JS guard `key && isHighlightKey(key)` makes an empty-string or absent key
non-highlighted. -/
def renderPrimitive (value : Json) (key : Option String) : String :=
  let displayValue := ensureString value
  let isHighlight : Bool :=
    match key with
    | some k => (k != "") && isHighlightKey k
    | none => false
  if isHighlight then highlightedP displayValue else standardP displayValue

/-- JS `Array.prototype.join('')`. -/
def joinAll : List String → String
  | [] => ""
  | s :: rest => s ++ joinAll rest

mutual
/-- Generate HTML for an array (source `renderArray`). The `key`
parameter is accepted but unused, exactly as in the source. The cards
branch maps over the array together with the element index;
`renderItems` carries that index explicitly and `itemCardHtml` is the
body of the map callback. -/
def renderArray (arr : List Json) (key : Option String) (depth : Nat) : String :=
  if arr.length = 0 then
    "<p style=\"margin: 0; color: #9ca3af; font-style: italic;\">No data available</p>"
  else if arr.all isPrimitiveB then
    "\n      <ul style=\"padding-left: 20px; margin: 8px 0; line-height: 1.8;\">\n        "
      ++ joinAll (arr.map (fun item =>
          "<li style=\"margin-bottom: 6px; color: #4b5563;\">" ++ ensureString item ++ "</li>"))
      ++ "\n      </ul>\n    "
  else
    "\n    <div style=\"display: flex; flex-direction: column; gap: 12px; margin-top: 8px;\">\n      "
      ++ joinAll (renderItems arr depth 0)
      ++ "\n    </div>\n  "
termination_by (sizeOf arr, 2)

/-- The indexed map of the cards branch of `renderArray`. -/
def renderItems (arr : List Json) (depth : Nat) (index : Nat) : List String :=
  match arr with
  | [] => []
  | item :: rest => itemCardHtml item index depth :: renderItems rest depth (index + 1)
termination_by (sizeOf arr, 1)

/-- One card of the cards branch of `renderArray`: an object element
recurses into `renderObject` at `depth + 1` under a 1-indexed `Item N`
label, any other element falls back to an unlabelled primitive box. -/
def itemCardHtml (item : Json) (index : Nat) (depth : Nat) : String :=
  match item with
  | .obj fields =>
    "\n            <div style=\"padding: 15px; background-color: "
      ++ (if depth = 0 then "#f9fafb" else "#ffffff")
      ++ "; border: 1px solid #e5e7eb; border-radius: 6px;\">\n              <div style=\"margin-bottom: 8px; font-weight: 600; color: #6b7280; font-size: 13px;\">Item "
      ++ toString (index + 1)
      ++ "</div>\n              "
      ++ renderObject fields (depth + 1)
      ++ "\n            </div>\n          "
  | _ =>
    "<div style=\"padding: 10px; background-color: #f9fafb; border-radius: 4px;\">"
      ++ renderPrimitive (Json.str (ensureString item)) none ++ "</div>"
termination_by (sizeOf item, 2)

/-- Generate HTML for an object (source `renderObject`, applied to
`Object.entries obj`). `.filter (s != "")` is JS `filter(Boolean)`. -/
def renderObject (entries : List (String × Json)) (depth : Nat) : String :=
  if entries.length = 0 then
    "<p style=\"margin: 0; color: #9ca3af; font-style: italic;\">No data available</p>"
  else
    "\n    <div style=\"display: flex; flex-direction: column; gap: 12px;\">\n      "
      ++ joinAll ((renderEntries entries depth).filter (fun s => s != ""))
      ++ "\n    </div>\n  "
termination_by (sizeOf entries, 2)

/-- The entry map of `renderObject`, in insertion order. -/
def renderEntries (entries : List (String × Json)) (depth : Nat) : List String :=
  match entries with
  | [] => []
  | (k, v) :: rest => renderEntry k v depth :: renderEntries rest depth
termination_by (sizeOf entries, 1)

/-- One entry of `renderObject`'s map: reserved keys yield nothing; a
primitive value gets a caption and a `renderPrimitive` node; an array
value gets a heading and `renderArray` at the same depth (the source
passes `ensureArray value`, which returns the array unchanged); an
object value gets a stronger heading and `renderObject` at `depth + 1`;
`null`/`undefined` yields nothing. -/
def renderEntry (k : String) (v : Json) (depth : Nat) : String :=
  if k = "message" ∨ k = "html_data" then ""
  else
    let label := formatKeyName k
    match v with
    | .str _ | .num _ | .bool _ =>
      "\n            <div>\n              <p style=\"margin: 0 0 4px 0; color: #6b7280; font-size: 13px; text-transform: uppercase; letter-spacing: 0.5px; font-weight: 600;\">"
        ++ label
        ++ "</p>\n              "
        ++ renderPrimitive v (some k)
        ++ "\n            </div>\n          "
    | .arr elems =>
      "\n            <div>\n              <p style=\"margin: 0 0 8px 0; color: #111827; font-size: 15px; font-weight: 600;\">"
        ++ label
        ++ "</p>\n              "
        ++ renderArray elems (some k) depth
        ++ "\n            </div>\n          "
    | .obj fields =>
      "\n            <div>\n              <h3 style=\"margin: 0 0 12px 0; color: #111827; font-size: 16px; font-weight: 700; border-left: 4px solid #3b82f6; padding-left: 12px;\">"
        ++ label
        ++ "</h3>\n              "
        ++ renderObject fields (depth + 1)
        ++ "\n            </div>\n          "
    | .null => ""
termination_by (sizeOf v, 2)
end

/-- Title extraction of `generateHtmlFromData`: a string-valued `title`
field of an object input overrides the caller's title. -/
def extractTitle (data : Json) (title : String) : String :=
  match data with
  | .obj fields =>
    match fields.lookup ("title") with
    | some (.str s) => s
    | _ => title
  | _ => title

/-- Subtitle extraction of `generateHtmlFromData`:
`data.hazardDetails.title` when both levels have the right shapes. The
JS guard `typeof x === 'object' && x !== null` also lets arrays through,
but an array has no `title` property, so only the object case can
produce a subtitle. -/
def extractSubtitle (data : Json) : String :=
  match data with
  | .obj fields =>
    match fields.lookup ("hazardDetails") with
    | some (.obj hf) =>
      match hf.lookup ("title") with
      | some (.str s) => s
      | _ => ""
    | _ => ""
  | _ => ""

/-- Body dispatch of `generateHtmlFromData`: object, array, then
primitive-or-absent via `ensureString`. -/
def bodyContent (data : Json) : String :=
  match data with
  | .obj fields => renderObject fields 0
  | .arr _ => renderArray (ensureArray data) none 0
  | _ => renderPrimitive (Json.str (ensureString data)) none

/-- The surrounding page template of `generateHtmlFromData`; `today`
stands for `new Date().toLocaleDateString()`, the only ambient read. -/
def pageHtml (reportTitle reportSubtitle body today : String) : String :=
  "\n    <div style=\"font-family: \x27Segoe UI\x27, Tahoma, Geneva, Verdana, sans-serif; padding: 40px; color: #1f2937; max-width: 900px; margin: 0 auto; background-color: #ffffff;\">\n      \n      <!-- Header -->\n      <div style=\"border-bottom: 2px solid #e5e7eb; padding-bottom: 20px; margin-bottom: 30px;\">\n        <h1 style=\"color: #111827; font-size: 28px; font-weight: 700; margin: 0 0 10px 0;\">"
    ++ reportTitle
    ++ "</h1>\n        "
    ++ (if reportSubtitle != "" then
          "<p style=\"color: #6b7280; font-size: 16px; margin: 0;\">" ++ reportSubtitle ++ "</p>"
        else "")
    ++ "\n      </div>\n\n      <!-- Content -->\n      "
    ++ body
    ++ "\n\n      <!-- Footer -->\n      <div style=\"margin-top: 50px; text-align: center; border-top: 1px solid #e5e7eb; padding-top: 20px;\">\n        <p style=\"color: #9ca3af; font-size: 12px;\">Generated by AI Report Generator • "
    ++ today
    ++ "</p>\n      </div>\n    </div>\n  "

/-- Generate a complete HTML report from any JSON/object data (source
`generateHtmlFromData`). -/
def generateHtmlFromData (data : Json) (title : String) (today : String) : String :=
  pageHtml (extractTitle data title) (extractSubtitle data) (bodyContent data) today

/-- The literal `\x60\x60\x60html` that opens a fenced code block, as a
character list. -/
def fencePat : List Char := ("\x60\x60\x60html" : String).data

/-- The closing fence `\x60\x60\x60`. -/
def ticks : List Char := ("\x60\x60\x60" : String).data

/-- Does `\s*` followed by the closing fence match at this position? Used
to model the backtracking of `\s*` before the final fence literal. -/
def wsThenTicks (cs : List Char) : Bool :=
  isPrefixList ticks (cs.dropWhile isJsSpace)

/-- The lazy capture group `([\s\S]*?)` of the stripping regex: grow the
group until the rest of the pattern (`\s*` then the closing fence)
matches. -/
def findGroup : List Char → Option (List Char)
  | [] => if wsThenTicks [] then some [] else none
  | c :: t =>
    if wsThenTicks (c :: t) then some []
    else (findGroup t).map (fun g => c :: g)

/-- Try the whole pattern at the current position: the literal opening
fence, greedy `\s*`, then the lazy group. -/
def matchFrom (cs : List Char) : Option (List Char) :=
  if isPrefixList fencePat cs then findGroup ((cs.drop 7).dropWhile isJsSpace)
  else none

/-- `String.prototype.match`: scan start positions left to right and
return the first full match's capture group. -/
def regexGroup1 : List Char → Option (List Char)
  | [] => matchFrom []
  | c :: t =>
    match matchFrom (c :: t) with
    | some g => some g
    | none => regexGroup1 t

/-- The stripping step of the upload component: when `html_data` is a
non-empty string containing the opening fence and the regex matches with
a non-empty capture group, replace the string by the trimmed group;
otherwise leave it unchanged. -/
def stripHtmlData (s : String) : String :=
  if s.data ≠ [] ∧ containsSub s.data fencePat = true then
    match regexGroup1 s.data with
    | some g => if g ≠ [] then String.mk (trimChars g) else s
    | none => s
  else s

/-! ## Shared helper lemmas -/

theorem length_append_pos_left (a b : String) (h : 0 < a.length) : 0 < (a ++ b).length := by
  simp only [String.length_append]
  omega

theorem toUpper_of_asciiUpper {c : Char} (h : isAsciiUpper c = true) : c.toUpper = c := by
  simp only [isAsciiUpper, Bool.and_eq_true, decide_eq_true_eq] at h
  simp only [Char.toUpper]
  rw [if_neg]
  omega

theorem notJsSpace_of_asciiUpper {c : Char} (h : isAsciiUpper c = true) : isJsSpace c = false := by
  simp only [isAsciiUpper, Bool.and_eq_true, decide_eq_true_eq] at h
  simp only [isJsSpace, Bool.or_eq_false_iff, decide_eq_false_iff_not]
  omega

theorem camelToTitle_eq_claim (key : String) : camelToTitle key = camelToTitleClaim key := by
  unfold camelToTitle camelToTitleClaim
  cases hd : key.data with
  | nil => rfl
  | cons c rest =>
    by_cases hc : isAsciiUpper c = true
    · have h1 : Char.toUpper ' ' = ' ' := by decide
      have h2 : Char.toUpper c = c := toUpper_of_asciiUpper hc
      have h3 : isJsSpace ' ' = true := by decide
      simp [spaceBeforeUppers, spaceBeforeUppersTail, hc, upperFirst, trimChars, h1, h2, h3,
        List.dropWhile_cons]
    · have hcf : isAsciiUpper c = false := by
        revert hc; cases isAsciiUpper c <;> simp
      simp [spaceBeforeUppers, spaceBeforeUppersTail, hcf, upperFirst]

theorem renderEntry_message (v : Json) (d : Nat) : renderEntry "message" v d = "" := by
  unfold renderEntry
  rw [if_pos (Or.inl rfl)]

theorem renderEntry_htmlData (v : Json) (d : Nat) : renderEntry "html_data" v d = "" := by
  unfold renderEntry
  rw [if_pos (Or.inr rfl)]

theorem renderEntries_append (l1 l2 : List (String × Json)) (d : Nat) :
    renderEntries (l1 ++ l2) d = renderEntries l1 d ++ renderEntries l2 d := by
  induction l1 with
  | nil => simp [renderEntries]
  | cons e t ih =>
    obtain ⟨k, v⟩ := e
    simp [renderEntries, ih]

theorem renderEntries_all_empty (entries : List (String × Json)) (d : Nat)
    (hall : ∀ p ∈ entries, renderEntry p.1 p.2 d = "") :
    ∀ s ∈ renderEntries entries d, s = "" := by
  induction entries with
  | nil => simp [renderEntries]
  | cons e t ih =>
    obtain ⟨k, v⟩ := e
    intro s hs
    rw [show renderEntries ((k, v) :: t) d = renderEntry k v d :: renderEntries t d from by
      simp [renderEntries]] at hs
    rcases List.mem_cons.mp hs with h | h
    · rw [h]
      exact hall (k, v) (List.mem_cons_self _ _)
    · exact ih (fun p hp => hall p (List.mem_cons_of_mem _ hp)) s h

theorem renderItems_length (arr : List Json) (d i : Nat) :
    (renderItems arr d i).length = arr.length := by
  induction arr generalizing i with
  | nil => simp [renderItems]
  | cons x t ih => simp [renderItems, ih]

theorem renderItems_getD (arr : List Json) (d : Nat) :
    ∀ (j i : Nat), i < arr.length →
      (renderItems arr d j).getD i ("") = itemCardHtml (arr.getD i Json.null) (j + i) d := by
  induction arr with
  | nil =>
    intro j i h
    simp at h
  | cons x t ih =>
    intro j i h
    cases i with
    | zero => simp [renderItems]
    | succ n =>
      have h' : n < t.length := by simpa using h
      rw [show renderItems (x :: t) d j = itemCardHtml x j d :: renderItems t d (j + 1) from by
        simp [renderItems]]
      simp only [List.getD_cons_succ]
      rw [show j + (n + 1) = (j + 1) + n from by omega]
      exact ih (j + 1) n h'

/-! ## Claim theorems -/

set_option maxRecDepth 16384

/-- C1: for every JSON-representable value and every title, the document
assembler `generateHtmlFromData` is a total function producing a
(non-empty) markup string; there is no error branch to reach. Totality
over all `Json` values is witnessed by the function being a total Lean
definition covering all shapes; this theorem quantifies over every value,
title and date. -/
theorem c1_assembler_total (data : Json) (title today : String) :
    0 < (generateHtmlFromData data title today).length := by
  unfold generateHtmlFromData pageHtml
  repeat apply length_append_pos_left
  decide

/-- C2: the empty mapping and the empty sequence render as the identical
"no data available" placeholder node (at any depths), and assembling
them with title "X" gives identical documents, whose body is exactly
that placeholder. -/
theorem c2_empty_placeholder (d1 d2 : Nat) (today : String) :
    renderObject [] d1 = renderArray [] none d2
    ∧ renderArray [] none d2
        = "<p style=\"margin: 0; color: #9ca3af; font-style: italic;\">No data available</p>"
    ∧ generateHtmlFromData (Json.obj []) "X" today
        = pageHtml "X" ""
            "<p style=\"margin: 0; color: #9ca3af; font-style: italic;\">No data available</p>" today
    ∧ generateHtmlFromData (Json.obj []) "X" today
        = generateHtmlFromData (Json.arr []) "X" today := by
  have h1 : renderObject [] d1
      = "<p style=\"margin: 0; color: #9ca3af; font-style: italic;\">No data available</p>" := by
    simp [renderObject]
  have h2 : renderArray [] none d2
      = "<p style=\"margin: 0; color: #9ca3af; font-style: italic;\">No data available</p>" := by
    simp [renderArray]
  have h0 : renderArray [] none 0
      = "<p style=\"margin: 0; color: #9ca3af; font-style: italic;\">No data available</p>" := by
    simp [renderArray]
  have hobj : renderObject ([] : List (String × Json)) 0
      = "<p style=\"margin: 0; color: #9ca3af; font-style: italic;\">No data available</p>" := by
    simp [renderObject]
  refine ⟨h1.trans h2.symm, h2, ?_, ?_⟩
  · simp [generateHtmlFromData, extractTitle, extractSubtitle, bodyContent, hobj]
  · simp [generateHtmlFromData, extractTitle, extractSubtitle, bodyContent, ensureArray, hobj, h0]

/-- C5 (code bug): the claim describes the intended exact-match table
lookup, but the source's truthy property access `specialCases[key]` also
hits inherited `Object.prototype` members. At the failing input
`toString` the code returns the inherited built-in function — not the
claim's generic transform "To String" — violating its own declared
`: string` return type. Outside the twelve prototype member names the
claim's description is exact: table hit, else the generic transform;
and `hazardId` maps to "Hazard ID". -/
theorem c5_formatKeyName_proto_leak :
    formatKeyName "toString" = "function toString() \x7b [native code] \x7d"
    ∧ formatKeyName "toString" ≠ camelToTitleClaim "toString"
    ∧ camelToTitleClaim "toString" = "To String"
    ∧ (∀ key : String, key ∉ objectPrototypeKeys → formatKeyName key = formatKeyNameClaim key)
    ∧ (∀ key label, specialCases.lookup key = some label → formatKeyName key = label)
    ∧ formatKeyName ("hazardId") = "Hazard ID" := by
  refine ⟨by decide, by decide, by decide, ?_, ?_, by rfl⟩
  · intro key hk
    unfold formatKeyName formatKeyNameClaim
    cases specialCases.lookup key <;> simp [hk, camelToTitle_eq_claim]
  · intro key label h
    unfold formatKeyName
    rw [h]

/-- C5 witness: both hypotheses exercised — the generic-transform branch
at a concrete non-prototype key, and the table-hit branch at a concrete
table key. -/
theorem c5_formatKeyName_proto_leak_witness :
    formatKeyName "someCamelKey" = formatKeyNameClaim "someCamelKey"
    ∧ formatKeyName ("riskRating") = "Risk Rating" :=
  ⟨c5_formatKeyName_proto_leak.2.2.2.1 "someCamelKey" (by decide),
   c5_formatKeyName_proto_leak.2.2.2.2.1 "riskRating" "Risk Rating" (by decide)⟩

/-- C6: `ensureArray` is total and idempotent: re-wrapping its result as
an array value and coercing again is the identity; an array input is
returned unchanged; `null`/`undefined` (both modelled by `Json.null`)
give `[]`; any other value is wrapped in a singleton. -/
theorem c6_ensureArray_props :
    (∀ x : Json, ensureArray (Json.arr (ensureArray x)) = ensureArray x)
    ∧ (∀ elems : List Json, ensureArray (Json.arr elems) = elems)
    ∧ ensureArray Json.null = []
    ∧ (∀ x : Json, (∀ elems, x ≠ Json.arr elems) → x ≠ Json.null → ensureArray x = [x]) := by
  refine ⟨fun x => rfl, fun elems => rfl, rfl, ?_⟩
  intro x h1 h2
  cases x with
  | arr elems => exact absurd rfl (h1 elems)
  | null => exact absurd rfl h2
  | str s => rfl
  | num n => rfl
  | bool b => rfl
  | obj fields => rfl

/-- C6 witness: the singleton-wrapping branch at a concrete non-array,
non-null value. -/
theorem c6_ensureArray_props_witness :
    ensureArray (Json.str "a") = [Json.str "a"] :=
  c6_ensureArray_props.2.2.2 (Json.str "a")
    (fun _ h => Json.noConfusion h) (fun h => Json.noConfusion h)

/-- C8: a primitive rendered with an originating key gets the emphasised
paragraph exactly when the key satisfies the highlight predicate and the
standard paragraph otherwise; `riskRating` is highlighted, `notes` is
not. -/
theorem c8_highlight_styling (v : Json) (k : String) :
    (isHighlightKey k = true → renderPrimitive v (some k) = highlightedP (ensureString v))
    ∧ (isHighlightKey k = false → renderPrimitive v (some k) = standardP (ensureString v))
    ∧ renderPrimitive v (some ("riskRating")) = highlightedP (ensureString v)
    ∧ renderPrimitive v (some ("notes")) = standardP (ensureString v) := by
  have gen1 : ∀ kk : String, isHighlightKey kk = true →
      renderPrimitive v (some kk) = highlightedP (ensureString v) := by
    intro kk h
    have hk : kk ≠ "" := by
      rintro rfl
      rw [show isHighlightKey "" = false from by decide] at h
      exact Bool.false_ne_true h
    have hk' : (kk != "") = true := by simpa [bne_iff_ne] using hk
    simp [renderPrimitive, h, hk']
  have gen2 : ∀ kk : String, isHighlightKey kk = false →
      renderPrimitive v (some kk) = standardP (ensureString v) := by
    intro kk h
    simp [renderPrimitive, h]
  exact ⟨gen1 k, gen2 k, gen1 "riskRating" (by decide), gen2 "notes" (by decide)⟩

/-- C8 witness: the highlighted branch applied at a concrete key and
value, with the predicate evaluated. -/
theorem c8_highlight_styling_witness :
    renderPrimitive (Json.str "x") (some ("hazard"))
      = highlightedP (ensureString (Json.str "x")) :=
  (c8_highlight_styling (Json.str "x") "hazard").1 (by decide)

/-- C3: the reserved keys `message` and `html_data` are skipped at every
depth: their entries render to nothing whatever their values, and
removing such an entry anywhere in a mapping (as long as something else
remains) leaves the rendered markup unchanged, with all other keys kept
in insertion order. -/
theorem c3_reserved_keys_skipped (pre post : List (String × Json)) (v : Json) (d : Nat) :
    renderEntry "message" v d = "" ∧ renderEntry "html_data" v d = ""
    ∧ (pre ++ post ≠ [] →
        renderObject (pre ++ ("message", v) :: post) d = renderObject (pre ++ post) d
        ∧ renderObject (pre ++ ("html_data", v) :: post) d = renderObject (pre ++ post) d) := by
  have key : ∀ kk : String, (∀ vv dd, renderEntry kk vv dd = "") → pre ++ post ≠ [] →
      renderObject (pre ++ (kk, v) :: post) d = renderObject (pre ++ post) d := by
    intro kk hk hne
    have hl1 : ¬ ((pre ++ (kk, v) :: post).length = 0) := by simp
    have hl2 : ¬ ((pre ++ post).length = 0) := by
      simpa [List.length_eq_zero] using hne
    unfold renderObject
    rw [if_neg hl1, if_neg hl2]
    simp [renderEntries_append, renderEntries, hk, List.filter_append, List.filter_cons]
  exact ⟨renderEntry_message v d, renderEntry_htmlData v d,
    fun hne => ⟨key "message" renderEntry_message hne, key "html_data" renderEntry_htmlData hne⟩⟩

/-- C3 witness: dropping a `message` entry from a concrete two-entry
mapping leaves the markup unchanged. -/
theorem c3_reserved_keys_skipped_witness :
    renderObject [("a", Json.str "x"), ("message", Json.str "z")] 0
      = renderObject [("a", Json.str "x")] 0 := by
  have h := (c3_reserved_keys_skipped [("a", Json.str "x")] [] (Json.str "z") 0).2.2 (by simp)
  simpa using h.1

/-- C4 counterexample: a NON-empty mapping whose only entry is the
reserved key `message` does not render as the "no data available"
placeholder, contrary to the claim; it renders as the field container
with empty content. -/
theorem c4_empty_output_placeholder_cex :
    renderObject [("message", Json.str "hi")] 0
        = "\n    <div style=\"display: flex; flex-direction: column; gap: 12px;\">\n      "
            ++ "\n    </div>\n  "
    ∧ renderObject [("message", Json.str "hi")] 0
        ≠ "<p style=\"margin: 0; color: #9ca3af; font-style: italic;\">No data available</p>" := by
  have h : renderObject [("message", Json.str "hi")] 0
      = "\n    <div style=\"display: flex; flex-direction: column; gap: 12px;\">\n      "
          ++ "\n    </div>\n  " := by
    unfold renderObject
    rw [if_neg (by simp)]
    rw [show renderEntries [("message", Json.str "hi")] 0
        = [renderEntry "message" (Json.str "hi") 0] from by simp [renderEntries]]
    rw [renderEntry_message]
    simp [joinAll]
  refine ⟨h, ?_⟩
  rw [h]
  decide

/-- C4 amended: the mapping renderer emits the placeholder exactly for a
mapping with NO entries; a non-empty mapping all of whose entries
produce no output (reserved keys, `null`/`undefined` values) renders as
the field container with empty content instead. -/
theorem c4_placeholder_amended (entries : List (String × Json)) (d : Nat) :
    (entries = [] → renderObject entries d
        = "<p style=\"margin: 0; color: #9ca3af; font-style: italic;\">No data available</p>")
    ∧ (entries ≠ [] → (∀ p ∈ entries, renderEntry p.1 p.2 d = "") →
        renderObject entries d
          = "\n    <div style=\"display: flex; flex-direction: column; gap: 12px;\">\n      "
              ++ "\n    </div>\n  ") := by
  constructor
  · rintro rfl
    simp [renderObject]
  · intro hne hall
    have hl : ¬ (entries.length = 0) := by simpa [List.length_eq_zero] using hne
    unfold renderObject
    rw [if_neg hl]
    have hfilter : (renderEntries entries d).filter (fun s => s != "") = [] := by
      rw [List.filter_eq_nil_iff]
      intro s hs
      rw [renderEntries_all_empty entries d hall s hs]
      simp
    rw [hfilter]
    simp [joinAll]

/-- C4 amended witness: the non-placeholder branch at the concrete
mapping whose one entry is reserved. -/
theorem c4_placeholder_amended_witness :
    renderObject [("message", Json.str "hi")] 0
      = "\n    <div style=\"display: flex; flex-direction: column; gap: 12px;\">\n      "
          ++ "\n    </div>\n  " :=
  (c4_placeholder_amended [("message", Json.str "hi")] 0).2 (by simp)
    (by
      intro p hp
      rw [List.mem_singleton] at hp
      subst hp
      exact renderEntry_message (Json.str "hi") 0)

/-- C7 counterexample: in the card stack, a non-object element's card
carries NO ordinal label (here the second card has no "Item 2"), and
card backgrounds do not alternate by depth parity: depth 0 and depth 2
have the same parity yet render different backgrounds. -/
theorem c7_cardstack_cex :
    containsSub (renderArray [Json.obj [("a", Json.str "b")], Json.str "p"] none 0).data
        ("Item 2" : String).data = false
    ∧ renderArray [Json.obj []] none 0 ≠ renderArray [Json.obj []] none 2 := by
  constructor
  · simp only [renderArray, renderItems, itemCardHtml, renderObject, renderEntries, renderEntry,
      List.length_cons, List.all_cons, isPrimitiveB]
    simp
    decide
  · simp only [renderArray, renderItems, itemCardHtml, renderObject, renderEntries,
      List.length_cons, List.all_cons, isPrimitiveB]
    simp
    decide

/-- C7 amended: a non-empty, not-all-primitive sequence renders as the
vertical card stack with exactly one card per element in order, where an
object element's card (see `itemCardHtml`) carries the 1-indexed
"Item N" label and recurses into the mapping renderer at depth + 1,
a non-object element falls back to an unlabelled primitive-style box of
its stringified form, and the card background is the light tone exactly
at depth 0 (top-level) and white at every nested depth — not a parity
alternation. -/
theorem c7_cardstack_amended (arr : List Json) (key : Option String) (depth : Nat)
    (h1 : arr ≠ []) (h2 : arr.all isPrimitiveB = false) :
    renderArray arr key depth
      = "\n    <div style=\"display: flex; flex-direction: column; gap: 12px; margin-top: 8px;\">\n      "
          ++ joinAll (renderItems arr depth 0) ++ "\n    </div>\n  "
    ∧ (renderItems arr depth 0).length = arr.length
    ∧ ∀ i, i < arr.length →
        (renderItems arr depth 0).getD i ("") = itemCardHtml (arr.getD i Json.null) i depth := by
  refine ⟨?_, renderItems_length arr depth 0, ?_⟩
  · unfold renderArray
    rw [if_neg (by simpa [List.length_eq_zero] using h1), if_neg (by simp [h2])]
  · intro i hi
    have h := renderItems_getD arr depth 0 i hi
    simpa using h

/-- C7 amended witness: the card-stack branch at a concrete mixed
sequence, one object and one primitive. -/
theorem c7_cardstack_amended_witness :
    renderArray [Json.obj [], Json.str "p"] none 0
      = "\n    <div style=\"display: flex; flex-direction: column; gap: 12px; margin-top: 8px;\">\n      "
          ++ joinAll (renderItems [Json.obj [], Json.str "p"] 0 0) ++ "\n    </div>\n  "
    ∧ (renderItems [Json.obj [], Json.str "p"] 0 0).length = 2 := by
  have h := c7_cardstack_amended [Json.obj [], Json.str "p"] none 0 (by simp) (by decide)
  exact ⟨h.1, by simpa using h.2.1⟩

/-! ## Helper lemmas for the stripping step (C9) -/

theorem dropWhile_append' (p : Char → Bool) (l1 l2 : List Char) :
    (l1 ++ l2).dropWhile p
      = if l1.dropWhile p = [] then l2.dropWhile p else l1.dropWhile p ++ l2 := by
  induction l1 with
  | nil => simp
  | cons c t ih =>
    by_cases hc : p c = true
    · simpa [List.dropWhile_cons, hc] using ih
    · have hcf : p c = false := by revert hc; cases p c <;> simp
      simp [List.dropWhile_cons, hcf]

theorem dropWhile_dropWhile (p : Char → Bool) (l : List Char) :
    (l.dropWhile p).dropWhile p = l.dropWhile p := by
  induction l with
  | nil => rfl
  | cons c t ih =>
    by_cases hc : p c = true
    · simp [List.dropWhile_cons, hc, ih]
    · have hcf : p c = false := by revert hc; cases p c <;> simp
      simp [List.dropWhile_cons, hcf]

theorem dropWhile_head_false {p : Char → Bool} {l : List Char} {c : Char} {rest : List Char}
    (h : l.dropWhile p = c :: rest) : p c = false := by
  induction l with
  | nil => simp at h
  | cons a t ih =>
    by_cases ha : p a = true
    · rw [List.dropWhile_cons, if_pos ha] at h
      exact ih h
    · have haf : p a = false := by revert ha; cases p a <;> simp
      rw [List.dropWhile_cons, if_neg (by simp [haf])] at h
      cases h
      exact haf

theorem rtrimChars_eq_nil (u : List Char) (h : ∀ x ∈ u, isJsSpace x = true) :
    rtrimChars u = [] := by
  unfold rtrimChars
  rw [List.dropWhile_eq_nil_iff.mpr (by intro x hx; exact h x (List.mem_reverse.mp hx))]
  rfl

theorem rtrimChars_cons (c : Char) (u : List Char)
    (h : ¬ ∀ x ∈ c :: u, isJsSpace x = true) :
    rtrimChars (c :: u) = c :: rtrimChars u := by
  unfold rtrimChars
  rw [List.reverse_cons, dropWhile_append' isJsSpace u.reverse [c]]
  by_cases hu : u.reverse.dropWhile isJsSpace = []
  · rw [if_pos hu]
    have huall : ∀ x ∈ u, isJsSpace x = true := by
      intro x hx
      exact List.dropWhile_eq_nil_iff.mp hu x (List.mem_reverse.mpr hx)
    have hcf : isJsSpace c = false := by
      by_cases hcc : isJsSpace c = true
      · exact absurd (by
          intro x hx
          rcases List.mem_cons.mp hx with h1 | h1
          · rw [h1]; exact hcc
          · exact huall x h1) h
      · revert hcc; cases isJsSpace c <;> simp
    rw [show List.dropWhile isJsSpace [c] = [c] from by simp [List.dropWhile_cons, hcf]]
    simp [hu]
  · rw [if_neg hu]
    rw [List.reverse_append]
    simp

theorem rtrimChars_idem (u : List Char) : rtrimChars (rtrimChars u) = rtrimChars u := by
  unfold rtrimChars
  rw [List.reverse_reverse, dropWhile_dropWhile]

theorem trimChars_idem (x : List Char) : trimChars (trimChars x) = trimChars x := by
  unfold trimChars
  cases hm : x.dropWhile isJsSpace with
  | nil => simp [rtrimChars]
  | cons c m =>
    have hc : isJsSpace c = false := dropWhile_head_false hm
    have hnall : ¬ ∀ y ∈ c :: m, isJsSpace y = true := by
      intro hall
      have hh := hall c (List.mem_cons_self c m)
      rw [hh] at hc
      simp at hc
    rw [rtrimChars_cons c m hnall]
    rw [show (c :: rtrimChars m).dropWhile isJsSpace = c :: rtrimChars m from by
      simp [List.dropWhile_cons, hc]]
    have hnall2 : ¬ ∀ y ∈ c :: rtrimChars m, isJsSpace y = true := by
      intro hall
      have hh := hall c (List.mem_cons_self _ _)
      rw [hh] at hc
      simp at hc
    rw [rtrimChars_cons c (rtrimChars m) hnall2, rtrimChars_idem]

theorem isPrefixList_append_self (p r : List Char) : isPrefixList p (p ++ r) = true := by
  induction p with
  | nil => rfl
  | cons a as ih => simp [isPrefixList, ih]

theorem containsSub_append_self (p r : List Char) : containsSub (p ++ r) p = true := by
  cases p with
  | nil =>
    cases r with
    | nil => rfl
    | cons c t => simp [containsSub, isPrefixList]
  | cons a as =>
    rw [List.cons_append]
    rw [show containsSub (a :: (as ++ r)) (a :: as)
        = (isPrefixList (a :: as) (a :: (as ++ r)) || containsSub (as ++ r) (a :: as)) from by
      simp [containsSub]]
    rw [show isPrefixList (a :: as) (a :: (as ++ r)) = true from by
      have hp := isPrefixList_append_self (a :: as) r
      rwa [List.cons_append] at hp]
    simp

theorem wsThenTicks_ticks : wsThenTicks ticks = true := by decide

theorem findGroup_append_ticks (u : List Char) (hnb : ∀ c ∈ u, c ≠ '\x60') :
    findGroup (u ++ ticks) = some (rtrimChars u) := by
  induction u with
  | nil =>
    rw [show ([] : List Char) ++ ticks = ticks from rfl]
    rw [show ticks = '\x60' :: '\x60' :: '\x60' :: [] from rfl]
    unfold findGroup
    rw [if_pos (by
      rw [show ('\x60' : Char) :: '\x60' :: '\x60' :: [] = ticks from rfl]
      exact wsThenTicks_ticks)]
    rfl
  | cons c t ih =>
    rw [List.cons_append]
    by_cases hall : ∀ x ∈ c :: t, isJsSpace x = true
    · have hws : wsThenTicks (c :: (t ++ ticks)) = true := by
        unfold wsThenTicks
        rw [show c :: (t ++ ticks) = (c :: t) ++ ticks from by rw [List.cons_append]]
        rw [dropWhile_append' isJsSpace (c :: t) ticks]
        rw [if_pos (List.dropWhile_eq_nil_iff.mpr hall)]
        decide
      unfold findGroup
      rw [if_pos hws]
      rw [rtrimChars_eq_nil (c :: t) hall]
    · have hws : wsThenTicks (c :: (t ++ ticks)) = false := by
        unfold wsThenTicks
        rw [show c :: (t ++ ticks) = (c :: t) ++ ticks from by rw [List.cons_append]]
        rw [dropWhile_append' isJsSpace (c :: t) ticks]
        have hne : ¬ ((c :: t).dropWhile isJsSpace = []) := by
          intro hcon
          exact hall (List.dropWhile_eq_nil_iff.mp hcon)
        rw [if_neg hne]
        obtain ⟨d, rest, hd⟩ : ∃ d rest, (c :: t).dropWhile isJsSpace = d :: rest := by
          cases hcase : (c :: t).dropWhile isJsSpace with
          | nil => exact absurd hcase hne
          | cons d rest => exact ⟨d, rest, rfl⟩
        rw [hd]
        have hdmem : d ∈ c :: t := by
          have hsub : List.Sublist ((c :: t).dropWhile isJsSpace) (c :: t) :=
            List.dropWhile_sublist isJsSpace
          apply hsub.subset
          rw [hd]
          exact List.mem_cons_self d rest
        have hdne : d ≠ '\x60' := hnb d hdmem
        have hbeq : (('\x60' : Char) == d) = false := by
          rw [beq_eq_false_iff_ne]
          exact fun hcon => hdne hcon.symm
        rw [show ticks = '\x60' :: '\x60' :: '\x60' :: [] from rfl]
        rw [List.cons_append]
        simp [isPrefixList, hbeq]
      have hstep : findGroup (c :: (t ++ ticks)) = (findGroup (t ++ ticks)).map (fun g => c :: g) := by
        conv_lhs => unfold findGroup
        rw [if_neg (by simp [hws])]
      rw [hstep, ih (fun x hx => hnb x (List.mem_cons_of_mem c hx))]
      rw [rtrimChars_cons c t hall]
      rfl

theorem regexGroup1_cons_of_match {c : Char} {t : List Char} {g : List Char}
    (h : matchFrom (c :: t) = some g) : regexGroup1 (c :: t) = some g := by
  simp only [regexGroup1, h]

/-! ## C9 and C10 -/

/-- C9: stripping a fenced `\x60\x60\x60html ... \x60\x60\x60` wrapper
extracts exactly the inner content with surrounding whitespace trimmed
(for backtick-free inner content that does not trim to nothing), and on
the concrete payload of the claim it yields exactly `<div>X</div>`. -/
theorem c9_strip_codeblock :
    (∀ inner : String, (∀ c ∈ inner.data, c ≠ '\x60') → trimChars inner.data ≠ [] →
      stripHtmlData ("\x60\x60\x60html" ++ inner ++ "\x60\x60\x60")
        = String.mk (trimChars inner.data))
    ∧ stripHtmlData "\x60\x60\x60html<div>X</div>\x60\x60\x60" = "<div>X</div>" := by
  constructor
  · intro inner hnb hnt
    have hdata : ("\x60\x60\x60html" ++ inner ++ "\x60\x60\x60").data
        = fencePat ++ (inner.data ++ ticks) := by
      simp [fencePat, ticks, List.append_assoc]
    have hfne : fencePat ≠ ([] : List Char) := by decide
    have hne0 : fencePat ++ (inner.data ++ ticks) ≠ [] := by
      simp [hfne]
    have hcont : containsSub (fencePat ++ (inner.data ++ ticks)) fencePat = true :=
      containsSub_append_self fencePat (inner.data ++ ticks)
    -- the full pattern matches at position 0
    have hmf : matchFrom (fencePat ++ (inner.data ++ ticks)) = some (trimChars inner.data) := by
      unfold matchFrom
      rw [if_pos (isPrefixList_append_self fencePat (inner.data ++ ticks))]
      rw [show (fencePat ++ (inner.data ++ ticks)).drop 7 = inner.data ++ ticks from rfl]
      have hmne : inner.data.dropWhile isJsSpace ≠ [] := by
        intro hcon
        apply hnt
        unfold trimChars
        rw [hcon]
        rfl
      rw [dropWhile_append' isJsSpace inner.data ticks, if_neg hmne]
      have hmem : ∀ c ∈ inner.data.dropWhile isJsSpace, c ≠ '\x60' := by
        intro c hc
        have hsub : List.Sublist (inner.data.dropWhile isJsSpace) inner.data :=
          List.dropWhile_sublist isJsSpace
        exact hnb c (hsub.subset hc)
      rw [findGroup_append_ticks (inner.data.dropWhile isJsSpace) hmem]
      rfl
    have hrg : regexGroup1 (fencePat ++ (inner.data ++ ticks)) = some (trimChars inner.data) := by
      rw [show fencePat ++ (inner.data ++ ticks)
          = '\x60' :: (("\x60\x60html" : String).data ++ (inner.data ++ ticks)) from rfl]
      apply regexGroup1_cons_of_match
      rw [show '\x60' :: (("\x60\x60html" : String).data ++ (inner.data ++ ticks))
          = fencePat ++ (inner.data ++ ticks) from rfl]
      exact hmf
    unfold stripHtmlData
    rw [hdata]
    rw [if_pos ⟨hne0, hcont⟩]
    simp only [hrg]
    rw [if_pos hnt]
    rw [trimChars_idem]
  · decide

/-- C9 witness: the general stripping theorem applied at a concrete
backtick-free inner payload with surrounding whitespace. -/
theorem c9_strip_codeblock_witness :
    stripHtmlData ("\x60\x60\x60html" ++ " <div>Y</div> " ++ "\x60\x60\x60")
      = String.mk (trimChars (" <div>Y</div> " : String).data) :=
  c9_strip_codeblock.1 " <div>Y</div> " (by decide) (by decide)

theorem string_append_assoc (a b c : String) : (a ++ b) ++ c = a ++ (b ++ c) :=
  String.ext (by simp [List.append_assoc])

theorem joinAll_append (l1 l2 : List String) : joinAll (l1 ++ l2) = joinAll l1 ++ joinAll l2 := by
  induction l1 with
  | nil =>
    rw [List.nil_append]
    exact (String.ext (by simp [joinAll]))
  | cons x t ih =>
    rw [List.cons_append]
    rw [show joinAll (x :: (t ++ l2)) = x ++ joinAll (t ++ l2) from by simp [joinAll]]
    rw [show joinAll (x :: t) = x ++ joinAll t from by simp [joinAll]]
    rw [ih, string_append_assoc]

theorem lookup_append_of_not_mem (a : String) (l1 l2 : List (String × Json))
    (h : a ∉ l1.map Prod.fst) : (l1 ++ l2).lookup a = l2.lookup a := by
  induction l1 with
  | nil => rfl
  | cons e t ih =>
    obtain ⟨k, v⟩ := e
    simp only [List.map_cons, List.mem_cons] at h
    push_neg at h
    obtain ⟨h1, h2⟩ := h
    rw [List.cons_append]
    rw [show ((k, v) :: (t ++ l2)).lookup a = (t ++ l2).lookup a from by
      simp [List.lookup, beq_eq_false_iff_ne.mpr h1]]
    exact ih h2

theorem extractTitle_of_entry (pre post : List (String × Json)) (s t : String)
    (h : "title" ∉ pre.map Prod.fst) :
    extractTitle (Json.obj (pre ++ ("title", Json.str s) :: post)) t = s := by
  simp only [extractTitle]
  rw [lookup_append_of_not_mem _ _ _ h]
  simp [List.lookup]

/-- C10: for a mapping whose (first) `title` entry holds a string `s`,
the assembled document carries `s` twice: the extracted page-header
title overrides the default, and the body renders the `title` entry like
any other (highlighted) labelled field, since only `message` and
`html_data` are skipped. -/
theorem c10_title_twice (pre post : List (String × Json)) (s t today : String)
    (h : "title" ∉ pre.map Prod.fst) :
    extractTitle (Json.obj (pre ++ ("title", Json.str s) :: post)) t = s
    ∧ ∃ A B C : String,
        generateHtmlFromData (Json.obj (pre ++ ("title", Json.str s) :: post)) t today
          = A ++ s ++ B ++ s ++ C := by
  have hT := extractTitle_of_entry pre post s t h
  refine ⟨hT, ?_⟩
  have hrp : renderPrimitive (Json.str s) (some "title") = highlightedP s := by
    have hk1 : ((("title" : String)) != "") = true := by decide
    have hk2 : isHighlightKey "title" = true := by decide
    simp [renderPrimitive, hk1, hk2, ensureString]
  have hre : renderEntry "title" (Json.str s) 0
      = "\n            <div>\n              <p style=\"margin: 0 0 4px 0; color: #6b7280; font-size: 13px; text-transform: uppercase; letter-spacing: 0.5px; font-weight: 600;\">"
          ++ "Title"
          ++ "</p>\n              "
          ++ highlightedP s
          ++ "\n            </div>\n          " := by
    unfold renderEntry
    rw [if_neg (by simp)]
    simp only [hrp, show formatKeyName "title" = "Title" from by decide]
  have hrene : renderEntry "title" (Json.str s) 0 ≠ "" := by
    rw [hre]
    intro hcon
    have hlen := congrArg String.length hcon
    simp only [String.length_append] at hlen
    rw [show ("Title" : String).length = 5 from by decide] at hlen
    rw [show ("" : String).length = 0 from rfl] at hlen
    omega
  have hfilq : ((renderEntry "title" (Json.str s) 0) != "") = true := by
    simpa [bne_iff_ne] using hrene
  have hlen0 : ¬ ((pre ++ ("title", Json.str s) :: post).length = 0) := by simp
  have hbody : renderObject (pre ++ ("title", Json.str s) :: post) 0
      = "\n    <div style=\"display: flex; flex-direction: column; gap: 12px;\">\n      "
          ++ (joinAll ((renderEntries pre 0).filter (fun x => x != ""))
              ++ (renderEntry "title" (Json.str s) 0
                  ++ joinAll ((renderEntries post 0).filter (fun x => x != ""))))
          ++ "\n    </div>\n  " := by
    unfold renderObject
    rw [if_neg hlen0]
    rw [renderEntries_append]
    rw [show renderEntries (("title", Json.str s) :: post) 0
        = renderEntry "title" (Json.str s) 0 :: renderEntries post 0 from by simp [renderEntries]]
    rw [List.filter_append, List.filter_cons, if_pos hfilq]
    rw [joinAll_append]
    rw [show joinAll (renderEntry "title" (Json.str s) 0
          :: (renderEntries post 0).filter (fun x => x != ""))
        = renderEntry "title" (Json.str s) 0
            ++ joinAll ((renderEntries post 0).filter (fun x => x != "")) from by simp [joinAll]]
  have hbc : bodyContent (Json.obj (pre ++ ("title", Json.str s) :: post))
      = renderObject (pre ++ ("title", Json.str s) :: post) 0 := rfl
  unfold generateHtmlFromData pageHtml
  rw [hT, hbc, hbody, hre]
  rw [show highlightedP s
      = "<p style=\"margin: 0; font-weight: 600; color: #111827; line-height: 1.6;\">"
          ++ s ++ "</p>" from rfl]
  refine ⟨"\n    <div style=\"font-family: \x27Segoe UI\x27, Tahoma, Geneva, Verdana, sans-serif; padding: 40px; color: #1f2937; max-width: 900px; margin: 0 auto; background-color: #ffffff;\">\n      \n      <!-- Header -->\n      <div style=\"border-bottom: 2px solid #e5e7eb; padding-bottom: 20px; margin-bottom: 30px;\">\n        <h1 style=\"color: #111827; font-size: 28px; font-weight: 700; margin: 0 0 10px 0;\">",
    "</h1>\n        "
      ++ (if extractSubtitle (Json.obj (pre ++ ("title", Json.str s) :: post)) != "" then
            "<p style=\"color: #6b7280; font-size: 16px; margin: 0;\">"
              ++ extractSubtitle (Json.obj (pre ++ ("title", Json.str s) :: post)) ++ "</p>"
          else "")
      ++ "\n      </div>\n\n      <!-- Content -->\n      "
      ++ "\n    <div style=\"display: flex; flex-direction: column; gap: 12px;\">\n      "
      ++ joinAll ((renderEntries pre 0).filter (fun x => x != ""))
      ++ "\n            <div>\n              <p style=\"margin: 0 0 4px 0; color: #6b7280; font-size: 13px; text-transform: uppercase; letter-spacing: 0.5px; font-weight: 600;\">"
      ++ "Title"
      ++ "</p>\n              "
      ++ "<p style=\"margin: 0; font-weight: 600; color: #111827; line-height: 1.6;\">",
    "</p>"
      ++ "\n            </div>\n          "
      ++ joinAll ((renderEntries post 0).filter (fun x => x != ""))
      ++ "\n    </div>\n  "
      ++ "\n\n      <!-- Footer -->\n      <div style=\"margin-top: 50px; text-align: center; border-top: 1px solid #e5e7eb; padding-top: 20px;\">\n        <p style=\"color: #9ca3af; font-size: 12px;\">Generated by AI Report Generator • "
      ++ today
      ++ "</p>\n      </div>\n    </div>\n  ", ?_⟩
  apply String.ext
  simp [List.append_assoc]

/-- C10 witness: the title appears twice for the concrete one-entry
mapping with title "T". -/
theorem c10_title_twice_witness :
    extractTitle (Json.obj ([] ++ ("title", Json.str "T") :: [])) "D" = "T"
    ∧ ∃ A B C : String,
        generateHtmlFromData (Json.obj ([] ++ ("title", Json.str "T") :: [])) "D" "2026-01-01"
          = A ++ "T" ++ B ++ "T" ++ C :=
  c10_title_twice [] [] "T" "D" "2026-01-01" (by simp)

end CapaReport
